import Mathlib

/-!
Verification of the `expedition` rich-text core: the style-merge algebra
(`MessageStyle.merge_from` / `merged_from`), the message tree (`Message`),
the builder operations (`Message.new`, `with`, the `Styleable` setters),
the depth-first flattening traversal (`Message.flatten` with a
`MessageFlattener` visitor), the plain-string rendering (`fmt::Display`),
and the reference stack-based visitor (`StackFlattener`).

The Rust code is shallowly embedded: structs become structures, the
message tree becomes a nested inductive, visitor objects with `&mut self`
methods become explicit state-passing functions, and the `FnMut` consumer
of `StackFlattener` becomes a state type `κ` with a step function
`κ → String → MessageStyle → κ`.
-/

set_option maxHeartbeats 1000000

namespace Expedition

/-- Embedding of `ecolor::Color32` (an rgba quadruple); the core never
computes with color components, it only stores and compares them. -/
structure Color32 where
  r : Nat
  g : Nat
  b : Nat
  a : Nat
deriving DecidableEq, Repr

/-- Rust `Color32::RED` from `ecolor`. -/
def Color32.RED : Color32 := ⟨255, 0, 0, 255⟩

/-- Rust `Color32::BLUE` from `ecolor`. -/
def Color32.BLUE : Color32 := ⟨0, 0, 255, 255⟩

/-- Embedding of `MessageStyle` (src/text.rs): five independently
optional fields, `None` meaning "inherit". -/
structure MessageStyle where
  color : Option Color32
  bold : Option Bool
  italic : Option Bool
  underline : Option Bool
  strikethrough : Option Bool
deriving DecidableEq, Repr

/-- Rust `MessageStyle::default()`: every field unset. -/
instance : Inhabited MessageStyle := ⟨⟨none, none, none, none, none⟩⟩

namespace MessageStyle

/-- Rust `MessageStyle::new` (src/text.rs line 139): the default style. -/
def new : MessageStyle := default

/-- Rust `MessageStyle::merge_from` (src/text.rs lines 152-158): the `&mut self`
receiver becomes the first argument and the updated value is returned.
Each field is `from.field.or(self.field)`. -/
def merge_from (self frm : MessageStyle) : MessageStyle where
  color := frm.color.or self.color
  bold := frm.bold.or self.bold
  italic := frm.italic.or self.italic
  underline := frm.underline.or self.underline
  strikethrough := frm.strikethrough.or self.strikethrough

/-- Rust `MessageStyle::merged_from` (src/text.rs lines 163-167). -/
def merged_from (self frm : MessageStyle) : MessageStyle :=
  self.merge_from frm

/-- Rust `<MessageStyle as Styleable>::with_style` (src/text.rs line 301). -/
def with_style (_self style : MessageStyle) : MessageStyle := style

/-- Rust `<MessageStyle as Styleable>::with_color` (src/text.rs line 305). -/
def with_color (self : MessageStyle) (color : Option Color32) : MessageStyle :=
  { self with color := color }

/-- Rust `<MessageStyle as Styleable>::with_bold` (src/text.rs line 310). -/
def with_bold (self : MessageStyle) (state : Option Bool) : MessageStyle :=
  { self with bold := state }

/-- Rust `<MessageStyle as Styleable>::with_italic` (src/text.rs line 315). -/
def with_italic (self : MessageStyle) (state : Option Bool) : MessageStyle :=
  { self with italic := state }

/-- Rust `<MessageStyle as Styleable>::with_underline` (src/text.rs line 320). -/
def with_underline (self : MessageStyle) (state : Option Bool) : MessageStyle :=
  { self with underline := state }

/-- Rust `<MessageStyle as Styleable>::with_strikethrough` (src/text.rs line 325). -/
def with_strikethrough (self : MessageStyle) (state : Option Bool) : MessageStyle :=
  { self with strikethrough := state }

/-- Default method `Styleable::color` (src/text.rs line 226). -/
def colorSet (self : MessageStyle) (color : Color32) : MessageStyle :=
  self.with_color (some color)

/-- Default method `Styleable::bold` (src/text.rs line 234). -/
def boldSet (self : MessageStyle) : MessageStyle := self.with_bold (some true)

/-- Default method `Styleable::no_bold` (src/text.rs line 242). -/
def no_bold (self : MessageStyle) : MessageStyle := self.with_bold (some false)

/-- Default method `Styleable::italic` (src/text.rs line 250). -/
def italicSet (self : MessageStyle) : MessageStyle := self.with_italic (some true)

/-- Default method `Styleable::no_italic` (src/text.rs line 258). -/
def no_italic (self : MessageStyle) : MessageStyle := self.with_italic (some false)

/-- Default method `Styleable::underline` (src/text.rs line 266). -/
def underlineSet (self : MessageStyle) : MessageStyle := self.with_underline (some true)

/-- Default method `Styleable::no_underline` (src/text.rs line 274). -/
def no_underline (self : MessageStyle) : MessageStyle := self.with_underline (some false)

/-- Default method `Styleable::strikethrough` (src/text.rs line 282). -/
def strikethroughSet (self : MessageStyle) : MessageStyle :=
  self.with_strikethrough (some true)

/-- Default method `Styleable::no_strikethrough` (src/text.rs line 290). -/
def no_strikethrough (self : MessageStyle) : MessageStyle :=
  self.with_strikethrough (some false)

end MessageStyle

/-- Embedding of `Message` (src/text.rs lines 95-102): a tree node with
content, its own style, and an ordered list of children. -/
inductive Message where
  | mk (content : String) (style : MessageStyle) (children : List Message)

/-- Field accessor for `Message.content`. -/
def Message.content : Message → String
  | .mk c _ _ => c

/-- Field accessor for `Message.style`. -/
def Message.style : Message → MessageStyle
  | .mk _ s _ => s

/-- Field accessor for `Message.children`. -/
def Message.children : Message → List Message
  | .mk _ _ cs => cs

/-- Rust `Message::new` (src/text.rs lines 128-134): a leaf with default style
and no children. -/
def Message.new (content : String) : Message :=
  .mk content default []

/-- Rust `IntoMessage::with` (src/text.rs lines 178-185): append the child to
the end of the child list (`Vec::push`). Named `withChild` because `with`
is reserved in Lean. -/
def Message.withChild (self : Message) (w : Message) : Message :=
  .mk self.content self.style (self.children ++ [w])

/-- Rust `<T: Into<String>> From<T> for Message` (src/text.rs lines 194-198):
a string coerces to a leaf message via `Message::new`. -/
def Message.ofString (s : String) : Message := Message.new s

/-- Rust `<T: Into<Message>> Styleable::with_style` (src/text.rs lines 334-338). -/
def Message.with_style (self : Message) (style : MessageStyle) : Message :=
  .mk self.content style self.children

/-- Rust `<T: Into<Message>> Styleable::with_color` (src/text.rs lines 340-344). -/
def Message.with_color (self : Message) (color : Option Color32) : Message :=
  .mk self.content (self.style.with_color color) self.children

/-- Rust `<T: Into<Message>> Styleable::with_bold` (src/text.rs lines 346-350). -/
def Message.with_bold (self : Message) (state : Option Bool) : Message :=
  .mk self.content (self.style.with_bold state) self.children

/-- Rust `<T: Into<Message>> Styleable::with_italic` (src/text.rs lines 352-356). -/
def Message.with_italic (self : Message) (state : Option Bool) : Message :=
  .mk self.content (self.style.with_italic state) self.children

/-- Rust `<T: Into<Message>> Styleable::with_underline` (src/text.rs lines 358-362). -/
def Message.with_underline (self : Message) (state : Option Bool) : Message :=
  .mk self.content (self.style.with_underline state) self.children

/-- Rust `<T: Into<Message>> Styleable::with_strikethrough` (src/text.rs lines 364-368). -/
def Message.with_strikethrough (self : Message) (state : Option Bool) : Message :=
  .mk self.content (self.style.with_strikethrough state) self.children

/-- Default method `Styleable::color` on messages. -/
def Message.colorSet (self : Message) (color : Color32) : Message :=
  self.with_color (some color)

/-- Default method `Styleable::bold` on messages. -/
def Message.boldSet (self : Message) : Message := self.with_bold (some true)

/-- Default method `Styleable::no_bold` on messages. -/
def Message.no_bold (self : Message) : Message := self.with_bold (some false)

/-- Default method `Styleable::italic` on messages. -/
def Message.italicSet (self : Message) : Message := self.with_italic (some true)

/-- Default method `Styleable::no_italic` on messages. -/
def Message.no_italic (self : Message) : Message := self.with_italic (some false)

/-- Default method `Styleable::underline` on messages. -/
def Message.underlineSet (self : Message) : Message := self.with_underline (some true)

/-- Default method `Styleable::no_underline` on messages. -/
def Message.no_underline (self : Message) : Message := self.with_underline (some false)

/-- Default method `Styleable::strikethrough` on messages. -/
def Message.strikethroughSet (self : Message) : Message :=
  self.with_strikethrough (some true)

/-- Default method `Styleable::no_strikethrough` on messages. -/
def Message.no_strikethrough (self : Message) : Message :=
  self.with_strikethrough (some false)

/-- Embedding of the `MessageFlattener` trait (src/util.rs lines 32-41):
a visitor is a state type `σ` with the three required methods, each
mutating the visitor state. -/
structure MessageFlattener (σ : Type) where
  push_style : σ → MessageStyle → σ
  content : σ → String → σ
  pop_style : σ → MessageStyle → σ

mutual

/-- Rust `Message::flatten` (src/util.rs lines 19-28): depth-first traversal
calling `push_style`, then `content`, then flattening each child in
order, then `pop_style`. -/
def Message.flatten {σ : Type} (V : MessageFlattener σ) : Message → σ → σ
  | .mk c st cs, s => V.pop_style (flattenList V cs (V.content (V.push_style s st) c)) st

/-- The `for child in &self.children { child.flatten(flattener) }` loop of
`Message::flatten`. -/
def flattenList {σ : Type} (V : MessageFlattener σ) : List Message → σ → σ
  | [], s => s
  | m :: ms, s => flattenList V ms (Message.flatten V m s)

end

/-- One call made by `Message::flatten` on a `MessageFlattener`: the
traversal's observable behaviour is the sequence of these calls. -/
inductive FlatEvent where
  | push (style : MessageStyle)
  | content (content : String)
  | pop (style : MessageStyle)
deriving DecidableEq, Repr

/-- Replay one recorded call on a visitor state. -/
def applyEvent {σ : Type} (V : MessageFlattener σ) (s : σ) : FlatEvent → σ
  | .push st => V.push_style s st
  | .content c => V.content s c
  | .pop st => V.pop_style s st

mutual

/-- The exact call sequence `Message::flatten` makes on its visitor,
read off the source: push the node's style, emit its content, recurse
into the children left to right, pop the node's style. -/
def Message.events : Message → List FlatEvent
  | .mk c st cs => .push st :: .content c :: (eventsList cs ++ [.pop st])

/-- Call sequence for a list of sibling subtrees, in order. -/
def eventsList : List Message → List FlatEvent
  | [] => []
  | m :: ms => m.events ++ eventsList ms

end

mutual

/-- Number of nodes in a message tree. -/
def Message.size : Message → Nat
  | .mk _ _ cs => 1 + sizeList cs

/-- Number of nodes in a list of sibling subtrees. -/
def sizeList : List Message → Nat
  | [] => 0
  | m :: ms => m.size + sizeList ms

end

/-- Whether an event is a `push_style` call. -/
def FlatEvent.isPush : FlatEvent → Bool
  | .push _ => true
  | _ => false

/-- Whether an event is a `pop_style` call. -/
def FlatEvent.isPop : FlatEvent → Bool
  | .pop _ => true
  | _ => false

/-- The content string of a `content` call, if the event is one. -/
def FlatEvent.contentOf : FlatEvent → Option String
  | .content c => some c
  | _ => none

/-- The stack-based nesting checker of the spec: scan the call sequence
keeping a depth counter; a `pop` at depth zero is an underflow (`none`).
A sequence starting and ending at depth zero with no underflow is
properly nested. -/
def scanDepth : List FlatEvent → Nat → Option Nat
  | [], d => some d
  | .push _ :: es, d => scanDepth es (d + 1)
  | .content _ :: es, d => scanDepth es d
  | .pop _ :: es, d => match d with
    | 0 => none
    | d' + 1 => scanDepth es d'

mutual

/-- The contents of a tree in depth-first pre-order, one entry per node. -/
def Message.contents : Message → List String
  | .mk c _ cs => c :: contentsList cs

/-- Contents of a list of sibling subtrees, in order. -/
def contentsList : List Message → List String
  | [] => []
  | m :: ms => m.contents ++ contentsList ms

end

/-- Spec-side definition for the rendering claim: the concatenation of a
list of strings in order, with no separator. -/
def concatAll : List String → String
  | [] => ""
  | s :: rest => s ++ concatAll rest

/-- The anonymous `Flattener` of `impl fmt::Display for Message`
(src/text.rs lines 434-447): ignores both style calls and appends each
content string to a buffer. -/
def plainFlattener : MessageFlattener String where
  push_style := fun buf _ => buf
  content := fun buf c => buf ++ c
  pop_style := fun buf _ => buf

/-- Rust `impl fmt::Display for Message` (src/text.rs lines 432-453): flatten
with the buffer-appending visitor starting from an empty buffer. -/
def Message.toPlainString (self : Message) : String :=
  self.flatten plainFlattener ""

/-- Embedding of `StackFlattener` (src/util.rs lines 72-114) with
consumer state `κ` and consumer step `f`. The visitor state pairs the
style stack (head = top, matching `Vec` last = top) with the consumer
state. `push_style` pushes `top.merged_from(style)` using the default
style when the stack is empty; `content` hands the consumer the top of
the stack or the default style; `pop_style` pops unconditionally
(`List.tail`, a no-op on the empty stack, matching `Vec::pop`). -/
def stackVisitor {κ : Type} (f : κ → String → MessageStyle → κ) :
    MessageFlattener (List MessageStyle × κ) where
  push_style := fun s style =>
    (((s.1.head?.getD default).merged_from style) :: s.1, s.2)
  content := fun s c => (s.1, f s.2 c (s.1.head?.getD default))
  pop_style := fun s _ => (s.1.tail, s.2)

/-- Rust `StackFlattener::new` (src/util.rs lines 84-89): empty style stack. -/
def stackFlattenerNew {κ : Type} (k : κ) : List MessageStyle × κ := ([], k)

mutual

/-- The resolved (content, style) observations for a subtree whose
ancestor chain has cumulative style `base`: each node's resolved style
is the chain merge from the root downward. -/
def Message.resolveFrom (base : MessageStyle) : Message → List (String × MessageStyle)
  | .mk c st cs => (c, base.merged_from st) :: resolveList (base.merged_from st) cs

/-- Resolved observations for sibling subtrees, in order. -/
def resolveList (base : MessageStyle) : List Message → List (String × MessageStyle)
  | [] => []
  | m :: ms => m.resolveFrom base ++ resolveList base ms

end

/-- Feed a list of (content, style) observations to a consumer. -/
def consumeList {κ : Type} (f : κ → String → MessageStyle → κ) (k : κ) :
    List (String × MessageStyle) → κ
  | [] => k
  | (c, st) :: rest => consumeList f (f k c st) rest

/-- A concrete consumer that records every (content, style) pair it is
handed, in call order. -/
def recordF : List (String × MessageStyle) → String → MessageStyle → List (String × MessageStyle) :=
  fun acc c st => acc ++ [(c, st)]

/-- The spec's explicit-off-overrides-ancestor-on example: a root with
bold explicitly on and a child with bold explicitly off. -/
def boldMsg : Message := ((Message.new "p").boldSet).withChild ((Message.new "q").no_bold)

/-- The first three flattening calls of `boldMsg`: enter the root, emit
its content, enter the child (traversal depth 2). -/
def boldMsgPfx : List FlatEvent :=
  [.push MessageStyle.new.boldSet, .content "p", .push MessageStyle.new.no_bold]

/-- The remaining flattening calls of `boldMsg`. -/
def boldMsgSfx : List FlatEvent :=
  [.content "q", .pop MessageStyle.new.no_bold, .pop MessageStyle.new.boldSet]

-- helper lemmas

theorem opt_or_eq_ite {α : Type} (x y : Option α) :
    x.or y = if x.isSome then x else y := by
  cases x <;> rfl

/-- C1: style merge is a per-field right-biased override: each field of
`a.merged_from(b)` is `b`'s value when `b` sets it and `a`'s value
otherwise, each of the five fields being resolved independently of the
others. -/
theorem merge_is_right_biased (a b : MessageStyle) :
    (a.merged_from b).color = (if b.color.isSome then b.color else a.color) ∧
    (a.merged_from b).bold = (if b.bold.isSome then b.bold else a.bold) ∧
    (a.merged_from b).italic = (if b.italic.isSome then b.italic else a.italic) ∧
    (a.merged_from b).underline = (if b.underline.isSome then b.underline else a.underline) ∧
    (a.merged_from b).strikethrough =
      (if b.strikethrough.isSome then b.strikethrough else a.strikethrough) := by
  refine ⟨?_, ?_, ?_, ?_, ?_⟩ <;>
    simp only [MessageStyle.merged_from, MessageStyle.merge_from, opt_or_eq_ite]

/-- C5: the default style is a two-sided identity for merge, and merging
it into any style any number of times changes nothing. -/
theorem default_style_merge_identity (s : MessageStyle) (n : Nat) :
    MessageStyle.new.merged_from s = s ∧
    s.merged_from MessageStyle.new = s ∧
    (fun t => t.merged_from MessageStyle.new)^[n] s = s := by
  have hl : MessageStyle.new.merged_from s = s := by
    obtain ⟨c, b, i, u, k⟩ := s
    simp [MessageStyle.new, MessageStyle.merged_from, MessageStyle.merge_from, Option.or_none,
      default]
  have hr : s.merged_from MessageStyle.new = s := by
    obtain ⟨c, b, i, u, k⟩ := s
    simp [MessageStyle.new, MessageStyle.merged_from, MessageStyle.merge_from, Option.none_or,
      default]
  refine ⟨hl, hr, ?_⟩
  induction n with
  | zero => rfl
  | succ n ih =>
    rw [Function.iterate_succ_apply', ih]
    obtain ⟨c, b, i, u, k⟩ := s
    simp [MessageStyle.new, MessageStyle.merged_from, MessageStyle.merge_from, Option.none_or,
      default]

/-- C6 counterexample: the overlays `b = bold-on` and `c = bold-off`
conflict in the bold field, yet applying them stepwise onto a base still
reproduces the single combined overlay `b.merged_from(c)` — refuting the
claim that the two agree only when the overlays do not conflict. -/
theorem merged_from_assoc_counterexample :
    (MessageStyle.new.boldSet).bold.isSome = true ∧
    (MessageStyle.new.no_bold).bold.isSome = true ∧
    (MessageStyle.new.boldSet).bold ≠ (MessageStyle.new.no_bold).bold ∧
    (MessageStyle.new.merged_from MessageStyle.new.boldSet).merged_from MessageStyle.new.no_bold
      = MessageStyle.new.merged_from
          (MessageStyle.new.boldSet.merged_from MessageStyle.new.no_bold) := by
  refine ⟨rfl, rfl, by decide, by decide⟩

/-- C6 (amended): stepwise merge is associative unconditionally — for
all styles `a, b, c`, `(a.merged_from b).merged_from c` equals
`a.merged_from (b.merged_from c)`, whether or not `b` and `c` conflict;
and each field of the cumulative result resolves to the most recently
applied overlay that sets it (`c` first, then `b`, then `a`). -/
theorem merged_from_assoc (a b c : MessageStyle) :
    (a.merged_from b).merged_from c = a.merged_from (b.merged_from c) ∧
    ((a.merged_from b).merged_from c).color
      = (if c.color.isSome then c.color else if b.color.isSome then b.color else a.color) ∧
    ((a.merged_from b).merged_from c).bold
      = (if c.bold.isSome then c.bold else if b.bold.isSome then b.bold else a.bold) ∧
    ((a.merged_from b).merged_from c).italic
      = (if c.italic.isSome then c.italic else if b.italic.isSome then b.italic else a.italic) ∧
    ((a.merged_from b).merged_from c).underline
      = (if c.underline.isSome then c.underline
         else if b.underline.isSome then b.underline else a.underline) ∧
    ((a.merged_from b).merged_from c).strikethrough
      = (if c.strikethrough.isSome then c.strikethrough
         else if b.strikethrough.isSome then b.strikethrough else a.strikethrough) := by
  refine ⟨?_, ?_, ?_, ?_, ?_, ?_⟩
  · obtain ⟨ac, ab, ai, au, ak⟩ := a
    obtain ⟨bc, bb, bi, bu, bk⟩ := b
    obtain ⟨cc, cb, ci, cu, ck⟩ := c
    simp [MessageStyle.merged_from, MessageStyle.merge_from, Option.or_assoc]
  all_goals
    simp only [MessageStyle.merged_from, MessageStyle.merge_from, opt_or_eq_ite]

/-- C7: `Message::new` builds a leaf with identity style and no
children, a string coerces to such a leaf, and `with` appends the child
to the end of the child list preserving call order, as in the
`"a".with("b").with("c")` example. -/
theorem builder_construction_order (s : String) (m w : Message) :
    (Message.new s).content = s ∧
    (Message.new s).style = MessageStyle.new ∧
    (Message.new s).children = [] ∧
    Message.ofString s = Message.new s ∧
    (m.withChild w).content = m.content ∧
    (m.withChild w).style = m.style ∧
    (m.withChild w).children = m.children ++ [w] ∧
    ((Message.ofString "a").withChild (Message.ofString "b")).withChild (Message.ofString "c")
      = Message.mk "a" MessageStyle.new [Message.new "b", Message.new "c"] := by
  obtain ⟨c, st, cs⟩ := m
  exact ⟨rfl, rfl, rfl, rfl, rfl, rfl, rfl, rfl⟩

/-- C9: the stack-based flattener's operations are total even on
unbalanced call sequences: `pop_style` on an empty stack leaves the
state unchanged (the stack stays empty), `content` on an empty stack
hands the consumer the default (identity) style, and `push_style` on an
empty stack merges into the default style. -/
theorem stack_flattener_total_on_empty (κ : Type) (f : κ → String → MessageStyle → κ)
    (k : κ) (c : String) (st : MessageStyle) :
    (stackVisitor f).pop_style ([], k) st = ([], k) ∧
    (stackVisitor f).content ([], k) c = ([], f k c MessageStyle.new) ∧
    (stackVisitor f).push_style ([], k) st = ([MessageStyle.new.merged_from st], k) := by
  exact ⟨rfl, rfl, rfl⟩

/-- C10: `with_style` replaces the whole style rather than merging:
the resulting message's style is exactly the argument, content and
children are untouched, and on a bare style it returns the argument. -/
theorem with_style_replaces_whole_style (m : Message) (s t : MessageStyle) :
    (m.with_style s).style = s ∧
    (m.with_style s).content = m.content ∧
    (m.with_style s).children = m.children ∧
    t.with_style s = s := by
  obtain ⟨c, st, cs⟩ := m
  exact ⟨rfl, rfl, rfl, rfl⟩

/-- C8: every per-decoration setter — the raw `with_color`/`with_bold`/
`with_italic`/`with_underline`/`with_strikethrough` and the derived
`color`, `bold`/`no_bold`, `italic`/`no_italic`, `underline`/
`no_underline`, `strikethrough`/`no_strikethrough` — changes exactly one
field of the receiver's own style, leaving the other four style fields,
the content and the children of a message (resp. the other fields of a
bare style) unchanged. -/
theorem setters_change_one_field (m : Message) (t : MessageStyle)
    (oc : Option Color32) (ob : Option Bool) (cl : Color32) :
    ((m.with_color oc).style.color = oc ∧
     (m.with_color oc).style.bold = m.style.bold ∧
     (m.with_color oc).style.italic = m.style.italic ∧
     (m.with_color oc).style.underline = m.style.underline ∧
     (m.with_color oc).style.strikethrough = m.style.strikethrough ∧
     (m.with_color oc).content = m.content ∧
     (m.with_color oc).children = m.children) ∧
    ((m.with_bold ob).style.bold = ob ∧
     (m.with_bold ob).style.color = m.style.color ∧
     (m.with_bold ob).style.italic = m.style.italic ∧
     (m.with_bold ob).style.underline = m.style.underline ∧
     (m.with_bold ob).style.strikethrough = m.style.strikethrough ∧
     (m.with_bold ob).content = m.content ∧
     (m.with_bold ob).children = m.children) ∧
    ((m.with_italic ob).style.italic = ob ∧
     (m.with_italic ob).style.color = m.style.color ∧
     (m.with_italic ob).style.bold = m.style.bold ∧
     (m.with_italic ob).style.underline = m.style.underline ∧
     (m.with_italic ob).style.strikethrough = m.style.strikethrough ∧
     (m.with_italic ob).content = m.content ∧
     (m.with_italic ob).children = m.children) ∧
    ((m.with_underline ob).style.underline = ob ∧
     (m.with_underline ob).style.color = m.style.color ∧
     (m.with_underline ob).style.bold = m.style.bold ∧
     (m.with_underline ob).style.italic = m.style.italic ∧
     (m.with_underline ob).style.strikethrough = m.style.strikethrough ∧
     (m.with_underline ob).content = m.content ∧
     (m.with_underline ob).children = m.children) ∧
    ((m.with_strikethrough ob).style.strikethrough = ob ∧
     (m.with_strikethrough ob).style.color = m.style.color ∧
     (m.with_strikethrough ob).style.bold = m.style.bold ∧
     (m.with_strikethrough ob).style.italic = m.style.italic ∧
     (m.with_strikethrough ob).style.underline = m.style.underline ∧
     (m.with_strikethrough ob).content = m.content ∧
     (m.with_strikethrough ob).children = m.children) ∧
    (m.colorSet cl = m.with_color (some cl) ∧
     m.boldSet = m.with_bold (some true) ∧
     m.no_bold = m.with_bold (some false) ∧
     m.italicSet = m.with_italic (some true) ∧
     m.no_italic = m.with_italic (some false) ∧
     m.underlineSet = m.with_underline (some true) ∧
     m.no_underline = m.with_underline (some false) ∧
     m.strikethroughSet = m.with_strikethrough (some true) ∧
     m.no_strikethrough = m.with_strikethrough (some false)) ∧
    ((t.with_color oc).color = oc ∧
     (t.with_color oc).bold = t.bold ∧
     (t.with_color oc).italic = t.italic ∧
     (t.with_color oc).underline = t.underline ∧
     (t.with_color oc).strikethrough = t.strikethrough) ∧
    ((t.with_bold ob).bold = ob ∧
     (t.with_bold ob).color = t.color ∧
     (t.with_bold ob).italic = t.italic ∧
     (t.with_bold ob).underline = t.underline ∧
     (t.with_bold ob).strikethrough = t.strikethrough) ∧
    ((t.with_italic ob).italic = ob ∧
     (t.with_italic ob).color = t.color ∧
     (t.with_italic ob).bold = t.bold ∧
     (t.with_italic ob).underline = t.underline ∧
     (t.with_italic ob).strikethrough = t.strikethrough) ∧
    ((t.with_underline ob).underline = ob ∧
     (t.with_underline ob).color = t.color ∧
     (t.with_underline ob).bold = t.bold ∧
     (t.with_underline ob).italic = t.italic ∧
     (t.with_underline ob).strikethrough = t.strikethrough) ∧
    ((t.with_strikethrough ob).strikethrough = ob ∧
     (t.with_strikethrough ob).color = t.color ∧
     (t.with_strikethrough ob).bold = t.bold ∧
     (t.with_strikethrough ob).italic = t.italic ∧
     (t.with_strikethrough ob).underline = t.underline) ∧
    (t.colorSet cl = t.with_color (some cl) ∧
     t.boldSet = t.with_bold (some true) ∧
     t.no_bold = t.with_bold (some false) ∧
     t.italicSet = t.with_italic (some true) ∧
     t.no_italic = t.with_italic (some false) ∧
     t.underlineSet = t.with_underline (some true) ∧
     t.no_underline = t.with_underline (some false) ∧
     t.strikethroughSet = t.with_strikethrough (some true) ∧
     t.no_strikethrough = t.with_strikethrough (some false)) := by
  obtain ⟨c, st, cs⟩ := m
  repeat' apply And.intro
  all_goals rfl

mutual

theorem flatten_eq_foldl {σ : Type} (V : MessageFlattener σ) (m : Message) (s : σ) :
    m.flatten V s = m.events.foldl (applyEvent V) s := by
  cases m with
  | mk c st cs =>
    rw [Message.flatten, Message.events]
    simp only [List.foldl_cons, List.foldl_append]
    rw [← flattenList_eq_foldl V cs]
    rfl

theorem flattenList_eq_foldl {σ : Type} (V : MessageFlattener σ) (ms : List Message) (s : σ) :
    flattenList V ms s = (eventsList ms).foldl (applyEvent V) s := by
  cases ms with
  | nil => rfl
  | cons m ms =>
    rw [flattenList, eventsList, List.foldl_append, flatten_eq_foldl V m,
      flattenList_eq_foldl V ms]

end

theorem scanDepth_append (es fs : List FlatEvent) (d : Nat) :
    scanDepth (es ++ fs) d = (scanDepth es d).bind (fun e => scanDepth fs e) := by
  induction es generalizing d with
  | nil => rfl
  | cons e es ih =>
    cases e with
    | push st => simpa [scanDepth] using ih (d + 1)
    | content c => simpa [scanDepth] using ih d
    | pop st =>
      cases d with
      | zero => rfl
      | succ d => simpa [scanDepth] using ih d

mutual

theorem scanDepth_events (m : Message) (d : Nat) : scanDepth m.events d = some d := by
  cases m with
  | mk c st cs =>
    rw [Message.events]
    show scanDepth (eventsList cs ++ [.pop st]) (d + 1) = some d
    rw [scanDepth_append, scanDepth_eventsList cs]
    rfl

theorem scanDepth_eventsList (ms : List Message) (d : Nat) :
    scanDepth (eventsList ms) d = some d := by
  cases ms with
  | nil => rfl
  | cons m ms =>
    rw [eventsList, scanDepth_append, scanDepth_events m, Option.some_bind,
      scanDepth_eventsList ms]

end

mutual

theorem events_countP_push (m : Message) :
    m.events.countP FlatEvent.isPush = m.size := by
  cases m with
  | mk c st cs =>
    rw [Message.events, Message.size, ← events_countP_push_list cs]
    simp [List.countP_cons, List.countP_append, FlatEvent.isPush, Nat.add_comm]

theorem events_countP_push_list (ms : List Message) :
    (eventsList ms).countP FlatEvent.isPush = sizeList ms := by
  cases ms with
  | nil => rfl
  | cons m ms =>
    rw [eventsList, List.countP_append, events_countP_push m, events_countP_push_list ms,
      sizeList]

end

mutual

theorem events_countP_pop (m : Message) :
    m.events.countP FlatEvent.isPop = m.size := by
  cases m with
  | mk c st cs =>
    rw [Message.events, Message.size, ← events_countP_pop_list cs]
    simp [List.countP_cons, List.countP_append, FlatEvent.isPop, Nat.add_comm]

theorem events_countP_pop_list (ms : List Message) :
    (eventsList ms).countP FlatEvent.isPop = sizeList ms := by
  cases ms with
  | nil => rfl
  | cons m ms =>
    rw [eventsList, List.countP_append, events_countP_pop m, events_countP_pop_list ms,
      sizeList]

end

mutual

theorem events_filterMap_content (m : Message) :
    m.events.filterMap FlatEvent.contentOf = m.contents := by
  cases m with
  | mk c st cs =>
    rw [Message.events, Message.contents, ← events_filterMap_content_list cs]
    simp [List.filterMap_cons, List.filterMap_append, FlatEvent.contentOf]

theorem events_filterMap_content_list (ms : List Message) :
    (eventsList ms).filterMap FlatEvent.contentOf = contentsList ms := by
  cases ms with
  | nil => rfl
  | cons m ms =>
    rw [eventsList, List.filterMap_append, events_filterMap_content m,
      events_filterMap_content_list ms, contentsList]

end

/-- C2: flattening a tree with any visitor replays exactly the canonical
call sequence — per node a `push_style`, then a `content` call (made
even for empty content), then the children's sequences left to right,
then a `pop_style`; hence the trace contains as many `push_style` as
`pop_style` calls as nodes, one `content` call per node in traversal
order, and the calls are strictly nested (a depth-counting checker
starting at zero ends at zero without ever underflowing). -/
theorem flatten_emits_canonical_trace (σ : Type) (V : MessageFlattener σ) (s : σ)
    (m : Message) :
    m.flatten V s = m.events.foldl (applyEvent V) s ∧
    m.events
      = .push m.style :: .content m.content :: (eventsList m.children ++ [.pop m.style]) ∧
    m.events.countP FlatEvent.isPush = m.size ∧
    m.events.countP FlatEvent.isPop = m.size ∧
    m.events.filterMap FlatEvent.contentOf = m.contents ∧
    scanDepth m.events 0 = some 0 :=
  ⟨flatten_eq_foldl V m s, by cases m; rfl, events_countP_push m, events_countP_pop m,
    events_filterMap_content m, scanDepth_events m 0⟩

theorem concatAll_append (xs ys : List String) :
    concatAll (xs ++ ys) = concatAll xs ++ concatAll ys := by
  induction xs with
  | nil => rw [List.nil_append, concatAll, String.empty_append]
  | cons x xs ih => rw [List.cons_append, concatAll, concatAll, ih, String.append_assoc]

mutual

theorem flatten_plain (m : Message) (buf : String) :
    m.flatten plainFlattener buf = buf ++ concatAll m.contents := by
  cases m with
  | mk c st cs =>
    rw [Message.flatten, Message.contents]
    show flattenList plainFlattener cs (buf ++ c) = buf ++ concatAll (c :: contentsList cs)
    rw [flattenList_plain cs, concatAll, String.append_assoc]

theorem flattenList_plain (ms : List Message) (buf : String) :
    flattenList plainFlattener ms buf = buf ++ concatAll (contentsList ms) := by
  cases ms with
  | nil => rw [flattenList, contentsList, concatAll, String.append_empty]
  | cons m ms =>
    rw [flattenList, contentsList, flatten_plain m, flattenList_plain ms, concatAll_append,
      String.append_assoc]

end

/-- C4: the plain-string rendering (the `Display` implementation) of any
tree is the depth-first pre-order concatenation of every node's content,
with no node skipped, no separator inserted and all styling ignored; in
particular the `"a".with("b".with("c")).with("d")` example renders as
`"abcd"`. -/
theorem display_is_content_concat (m : Message) :
    m.toPlainString = concatAll m.contents ∧
    (((Message.new "a").withChild ((Message.new "b").withChild (Message.new "c"))).withChild
      (Message.new "d")).toPlainString = "abcd" :=
  ⟨by rw [Message.toPlainString, flatten_plain, String.empty_append], by rfl⟩

theorem consumeList_append {κ : Type} (f : κ → String → MessageStyle → κ) (k : κ)
    (xs ys : List (String × MessageStyle)) :
    consumeList f k (xs ++ ys) = consumeList f (consumeList f k xs) ys := by
  induction xs generalizing k with
  | nil => rfl
  | cons x xs ih =>
    obtain ⟨c, st⟩ := x
    rw [List.cons_append, consumeList, consumeList, ih]

mutual

theorem stack_run {κ : Type} (f : κ → String → MessageStyle → κ) (m : Message)
    (s : List MessageStyle × κ) :
    m.flatten (stackVisitor f) s
      = (s.1, consumeList f s.2 (m.resolveFrom (s.1.head?.getD default))) := by
  cases m with
  | mk c sty cs =>
    rw [Message.flatten, Message.resolveFrom, stack_run_list f cs]
    rfl

theorem stack_run_list {κ : Type} (f : κ → String → MessageStyle → κ) (ms : List Message)
    (s : List MessageStyle × κ) :
    flattenList (stackVisitor f) ms s
      = (s.1, consumeList f s.2 (resolveList (s.1.head?.getD default) ms)) := by
  cases ms with
  | nil =>
    rw [flattenList, resolveList]
    exact Prod.mk.eta.symm
  | cons m ms =>
    rw [flattenList, stack_run f m s, stack_run_list f ms, resolveList, consumeList_append]

end

theorem stack_foldl_length {κ : Type} (f : κ → String → MessageStyle → κ)
    (p : List FlatEvent) (st : List MessageStyle) (k : κ) (n d : Nat)
    (h : scanDepth p n = some d) (hle : n ≤ st.length) :
    ((p.foldl (applyEvent (stackVisitor f)) (st, k)).1).length + n = st.length + d := by
  induction p generalizing st k n with
  | nil =>
    simp only [scanDepth, Option.some.injEq] at h
    subst h
    rfl
  | cons e es ih =>
    cases e with
    | push sty =>
      simp only [scanDepth] at h
      have hx := ih (((st.head?.getD default).merged_from sty) :: st) k (n + 1) h
        (by simpa using Nat.succ_le_succ hle)
      rw [List.foldl_cons]
      have he : applyEvent (stackVisitor f) (st, k) (.push sty)
          = (((st.head?.getD default).merged_from sty) :: st, k) := rfl
      rw [he]
      rw [List.length_cons] at hx
      omega
    | content c =>
      simp only [scanDepth] at h
      have hx := ih st (f k c (st.head?.getD default)) n h hle
      rw [List.foldl_cons]
      have he : applyEvent (stackVisitor f) (st, k) (.content c)
          = (st, f k c (st.head?.getD default)) := rfl
      rw [he]
      exact hx
    | pop sty =>
      cases n with
      | zero => simp [scanDepth] at h
      | succ n =>
        simp only [scanDepth] at h
        have hx := ih st.tail k n h (by rw [List.length_tail]; omega)
        rw [List.foldl_cons]
        have he : applyEvent (stackVisitor f) (st, k) (.pop sty) = (st.tail, k) := rfl
        rw [he]
        rw [List.length_tail] at hx
        omega

/-- C3: flattening any tree through the stack-based flattener (started
with its empty stack) hands the consumer, node by node in traversal
order, the merge of the whole root-to-node style chain applied from the
root (least priority) to the node (highest priority), and returns with
the stack empty again; moreover after any prefix of the traversal's
calls the stack depth equals that prefix's push/pop nesting depth, i.e.
the current traversal depth. -/
theorem stack_flattener_invariant (κ : Type) (f : κ → String → MessageStyle → κ)
    (m : Message) (k : κ) (p q : List FlatEvent) (h : m.events = p ++ q) :
    m.flatten (stackVisitor f) ([], k)
      = ([], consumeList f k (m.resolveFrom MessageStyle.new)) ∧
    (scanDepth p 0).isSome = true ∧
    ((p.foldl (applyEvent (stackVisitor f)) ([], k)).1).length = (scanDepth p 0).getD 0 := by
  have h0 : scanDepth (p ++ q) 0 = some 0 := by rw [← h]; exact scanDepth_events m 0
  rw [scanDepth_append] at h0
  obtain ⟨d, hd, -⟩ := Option.bind_eq_some.mp h0
  refine ⟨stack_run f m ([], k), ?_, ?_⟩
  · rw [hd]; rfl
  · have hx := stack_foldl_length f p [] k 0 d hd (Nat.le_refl 0)
    rw [hd]
    simpa using hx

/-- Witness for the stack-flattener invariant at the spec's
explicit-off-overrides-ancestor-on example: the child's content is
handed a style with bold explicitly off although the root turned bold
on; the prefix entering the child leaves the stack at depth 2. -/
theorem stack_flattener_invariant_witness :
    Message.events boldMsg = boldMsgPfx ++ boldMsgSfx ∧
    (boldMsg.flatten (stackVisitor recordF) ([], [])
        = ([], consumeList recordF [] (boldMsg.resolveFrom MessageStyle.new)) ∧
      (scanDepth boldMsgPfx 0).isSome = true ∧
      ((boldMsgPfx.foldl (applyEvent (stackVisitor recordF)) ([], [])).1).length
        = (scanDepth boldMsgPfx 0).getD 0) ∧
    consumeList recordF [] (boldMsg.resolveFrom MessageStyle.new)
      = [("p", MessageStyle.new.boldSet), ("q", MessageStyle.new.no_bold)] :=
  ⟨by decide,
    stack_flattener_invariant _ recordF boldMsg [] boldMsgPfx boldMsgSfx (by decide),
    by decide⟩

end Expedition
